import Mathlib

/-!
Verification of the request/response rewriting pipeline of the
Cloudflare-Workers reverse proxy (src/worker.js).

The worker is shallowly embedded: strings are `List Char`, the Fetch-API
header multimap is an association list, and the platform collaborators the
worker calls (`decodeURIComponent`, `encodeURIComponent`, the WHATWG `URL`
parser/resolver, `Headers`, `Response`) are given executable models.  The
origin fetch is an input of the pipeline function: `handleRequest` takes the
incoming request together with the outcome of `fetch(modifiedRequest)`.
-/

/-- Shorthand turning a string literal into the `List Char` representation
used throughout the development. -/
def str (x : String) : List Char := x.data

/-- ASCII lower-casing of a character string, the model of
`String.prototype.toLowerCase` for the ASCII header/cookie text the worker
manipulates. -/
def lowerL (s : List Char) : List Char := s.map Char.toLower

/-- Case-insensitive substring test: the model of
`s.toLowerCase().includes(pat)` and of a case-insensitive regex test for a
literal pattern `pat`. -/
def containsCI (s pat : List Char) : Bool :=
  decide (lowerL pat <:+: lowerL s)

/-- Case-sensitive substring test, the model of `s.includes(pat)`. -/
def containsCS (s pat : List Char) : Bool :=
  decide (pat <:+: s)

/-- The characters `encodeURIComponent` leaves unescaped. -/
def encUnreserved (c : Char) : Bool :=
  c.isAlphanum || c = '-' || c = '_' || c = '.' || c = '!' || c = '~' ||
    c = '*' || c = '\'' || c = '(' || c = ')'

/-- Hex digit (upper case) for a value below 16, as produced by JavaScript
percent-encoding. -/
def hexDigit (n : Nat) : Char :=
  Char.ofNat (if n < 10 then 48 + n else 55 + n)

/-- UTF-8 byte sequence of a scalar value, used by `encodeURIComponent` and
by `TextEncoder().encode`. -/
def utf8Bytes (c : Char) : List Nat :=
  let n := c.toNat
  if n < 0x80 then [n]
  else if n < 0x800 then [0xC0 + n / 64, 0x80 + n % 64]
  else if n < 0x10000 then
    [0xE0 + n / 4096, 0x80 + (n / 64) % 64, 0x80 + n % 64]
  else
    [0xF0 + n / 262144, 0x80 + (n / 4096) % 64, 0x80 + (n / 64) % 64, 0x80 + n % 64]

/-- Model of the platform `encodeURIComponent`: unreserved characters pass
through, every other character is replaced by the percent-encoding of its
UTF-8 bytes. -/
def encodeURIComponent (s : List Char) : List Char :=
  (s.map (fun c =>
    if encUnreserved c then [c]
    else (utf8Bytes c).map (fun b => ['%', hexDigit (b / 16), hexDigit (b % 16)]) |>.flatten)).flatten

/-- Numeric value of a hex digit, if any. -/
def hexVal (c : Char) : Option Nat :=
  let n := c.toNat
  if 48 ≤ n ∧ n ≤ 57 then some (n - 48)
  else if 65 ≤ n ∧ n ≤ 70 then some (n - 55)
  else if 97 ≤ n ∧ n ≤ 102 then some (n - 87)
  else none

/-- First decoding phase of `decodeURIComponent`: each `%HH` escape becomes a
byte (`Sum.inr`), every other character stays as itself (`Sum.inl`).  A `%`
not followed by two hex digits is the malformed-escape failure. -/
def percentBytes : List Char → Option (List (Sum Char Nat))
  | [] => some []
  | '%' :: a :: b :: rest =>
    match hexVal a, hexVal b with
    | some x, some y => (percentBytes rest).map (fun l => Sum.inr (16 * x + y) :: l)
    | _, _ => none
  | '%' :: _ => none
  | c :: rest => (percentBytes rest).map (fun l => Sum.inl c :: l)

/-- Is `b` a UTF-8 continuation byte? -/
def utf8Cont (b : Nat) : Bool := 0x80 ≤ b ∧ b < 0xC0

/-- Second decoding phase of `decodeURIComponent`: decode the byte runs as
UTF-8, rejecting truncated sequences, overlong forms, surrogates and values
above U+10FFFF, exactly the cases where the platform throws `URIError`. -/
def utf8Run : List (Sum Char Nat) → Option (List Char)
  | [] => some []
  | Sum.inl c :: rest => (utf8Run rest).map (fun l => c :: l)
  | Sum.inr b :: rest =>
    if b < 0x80 then (utf8Run rest).map (fun l => Char.ofNat b :: l)
    else if b < 0xC2 then none
    else if b < 0xE0 then
      match rest with
      | Sum.inr b2 :: rest2 =>
        if utf8Cont b2 then
          (utf8Run rest2).map (fun l => Char.ofNat ((b - 0xC0) * 64 + (b2 - 0x80)) :: l)
        else none
      | _ => none
    else if b < 0xF0 then
      match rest with
      | Sum.inr b2 :: Sum.inr b3 :: rest3 =>
        if utf8Cont b2 ∧ utf8Cont b3 then
          let cp := (b - 0xE0) * 4096 + (b2 - 0x80) * 64 + (b3 - 0x80)
          if 0x800 ≤ cp ∧ ¬ (0xD800 ≤ cp ∧ cp < 0xE000) then
            (utf8Run rest3).map (fun l => Char.ofNat cp :: l)
          else none
        else none
      | _ => none
    else if b < 0xF5 then
      match rest with
      | Sum.inr b2 :: Sum.inr b3 :: Sum.inr b4 :: rest4 =>
        if utf8Cont b2 ∧ utf8Cont b3 ∧ utf8Cont b4 then
          let cp := (b - 0xF0) * 262144 + (b2 - 0x80) * 4096 + (b3 - 0x80) * 64 + (b4 - 0x80)
          if 0x10000 ≤ cp ∧ cp ≤ 0x10FFFF then
            (utf8Run rest4).map (fun l => Char.ofNat cp :: l)
          else none
        else none
      | _ => none
    else none

/-- Model of the platform `decodeURIComponent`; `none` is the thrown
`URIError` (malformed percent sequence or invalid UTF-8). -/
def decodePercent (s : List Char) : Option (List Char) :=
  (percentBytes s).bind utf8Run

/-- Byte length of a string under UTF-8, the model of
`new TextEncoder().encode(s).length`. -/
def utf8Length (s : List Char) : Nat :=
  (s.map (fun c => (utf8Bytes c).length)).sum

/-- Decimal digit string of a number, the model of `n.toString()` for the
recomputed `Content-Length`. -/
def natToDec (n : Nat) : List Char := Nat.toDigits 10 n

/-- The Fetch-API `Headers` object, modelled as an association list of
(name, value) pairs.  Name lookup is case-insensitive; multiple entries with
the same name model repeated headers (relevant only for `Set-Cookie`). -/
abbrev Headers := List (List Char × List Char)

/-- All values stored under a name (case-insensitive), the model of
`headers.getAll(name)`. -/
def getAllH (h : Headers) (n : List Char) : List (List Char) :=
  (h.filter (fun p => decide (lowerL p.1 = lowerL n))).map (fun p => p.2)

/-- Join of header values as `headers.get` returns them when a name is
repeated. -/
def joinCommaSpace : List (List Char) → List Char
  | [] => []
  | [v] => v
  | v :: rest => v ++ str ", " ++ joinCommaSpace rest

/-- Model of `headers.get(name)`: `none` when absent, otherwise the
comma-joined values. -/
def getH (h : Headers) (n : List Char) : Option (List Char) :=
  match getAllH h n with
  | [] => none
  | l => some (joinCommaSpace l)

/-- Model of `headers.delete(name)`. -/
def deleteH (h : Headers) (n : List Char) : Headers :=
  h.filter (fun p => decide (¬ lowerL p.1 = lowerL n))

/-- Model of `headers.set(name, value)`: all previous entries of the name are
dropped and the single new pair recorded. -/
def setH (h : Headers) (n v : List Char) : Headers :=
  deleteH h n ++ [(n, v)]

/-- Model of `headers.append(name, value)`. -/
def appendH (h : Headers) (n v : List Char) : Headers :=
  h ++ [(n, v)]

/-- Model of `filterHeaders(headers, filterFunc)` from the worker: keep the
pairs whose name satisfies the predicate. -/
def filterHeaders (h : Headers) (f : List Char → Bool) : Headers :=
  h.filter (fun p => f p.1)

/-- The worker's platform-internal header filter
`name => !name.toLowerCase().startsWith('cf-')`. -/
def filterHeadersCf (h : Headers) : Headers :=
  filterHeaders h (fun n => ! (str "cf-").isPrefixOf (lowerL n))

/-- Parsed URL record, the part of the WHATWG `URL` class the worker reads:
`protocol` keeps the trailing colon, `pathname` starts with a slash and
`search` is empty or starts with a question mark. -/
structure URLm where
  protocol : List Char
  host : List Char
  pathname : List Char
  search : List Char
deriving DecidableEq

/-- Serialization `url.toString()` of the modelled URL record. -/
def urlToString (u : URLm) : List Char :=
  u.protocol ++ str "//" ++ u.host ++ u.pathname ++ u.search

/-- The `url.origin` the worker reads in `handleHtmlContent`. -/
def originOf (u : URLm) : List Char :=
  u.protocol ++ str "//" ++ u.host

/-- Is `c` a character ending the host portion of an URL? -/
def hostEnd (c : Char) : Bool := c = '/' || c = '?'

/-- Parse the remainder of an URL once the scheme is known. -/
def parseAfterScheme (proto rest : List Char) : Option URLm :=
  let host := rest.takeWhile (fun c => ! hostEnd c)
  if host.isEmpty then none
  else
    let after := rest.dropWhile (fun c => ! hostEnd c)
    let path := after.takeWhile (fun c => c != '?')
    let search := after.dropWhile (fun c => c != '?')
    some { protocol := proto, host := host,
           pathname := if path.isEmpty then str "/" else path, search := search }

/-- Modelled from the spec: the platform `new URL(absolute)` parser the worker
relies on (§3 TargetURL, §4.1), simplified to the `http`/`https` URLs the
pipeline produces — scheme, host, path and query are separated; userinfo,
ports, fragments and host normalization are not modelled. -/
def parseURL (s : List Char) : Option URLm :=
  if (str "http://").isPrefixOf s then parseAfterScheme (str "http:") (s.drop 7)
  else if (str "https://").isPrefixOf s then parseAfterScheme (str "https:") (s.drop 8)
  else none

/-- Split a reference into its path and query parts. -/
def splitQuery (s : List Char) : List Char × List Char :=
  (s.takeWhile (fun c => c != '?'), s.dropWhile (fun c => c != '?'))

/-- Directory of a path: everything up to and including the last slash. -/
def dirOf (p : List Char) : List Char :=
  ((p.reverse.dropWhile (fun c => c != '/')).reverse)

/-- Modelled from the spec: the platform `new URL(location, base)` resolution
used by the redirect rewriter (§4.6) — an absolute reference stands alone, a
`//` reference takes the base scheme, a rooted reference replaces the base
path and query, and any other reference is resolved against the base
directory (dot segments are not normalized). -/
def resolveURL (loc base : List Char) : Option URLm :=
  if (str "http://").isPrefixOf loc || (str "https://").isPrefixOf loc then parseURL loc
  else
    match parseURL base with
    | none => none
    | some b =>
      if (str "//").isPrefixOf loc then parseURL (b.protocol ++ loc)
      else if (str "/").isPrefixOf loc then
        some { b with pathname := (splitQuery loc).1, search := (splitQuery loc).2 }
      else
        some { b with pathname := dirOf b.pathname ++ (splitQuery loc).1,
                      search := (splitQuery loc).2 }

/-- The worker's `ensureProtocol`: prefix the incoming request's protocol when
the decoded target URL carries none. -/
def ensureProtocol (url defaultProtocol : List Char) : List Char :=
  if (str "http://").isPrefixOf url || (str "https://").isPrefixOf url then url
  else defaultProtocol ++ str "//" ++ url

/-- The worker's proxy-domain constant `PROXY_DOMAIN` (empty in the source). -/
def PROXY_DOMAIN : List Char := str ""

/-- The per-host header rule table `specialCases` from the worker, in object
insertion order. -/
def specialCasesRules (hostname : List Char) : List (List Char × List Char) :=
  if hostname = str "i.pximg.net" then
    [(str "Origin", str "DELETE"), (str "Referer", str "https://www.pixiv.net/")]
  else if hostname = str "i-cf.pximg.net" then
    [(str "Origin", str "DELETE"), (str "Referer", str "https://www.pixiv.net/")]
  else if hostname = str "*" then
    [(str "Origin", str "DELETE"), (str "Referer", str "DELETE")]
  else
    [(str "Origin", str "DELETE"), (str "Referer", str "DELETE")]

/-- One rule application of `handleSpecialCases`: `KEEP` leaves the headers,
`DELETE` removes the key, any other value overwrites it. -/
def applyRule (h : Headers) (rule : List Char × List Char) : Headers :=
  if rule.2 = str "KEEP" then h
  else if rule.2 = str "DELETE" then deleteH h rule.1
  else setH h rule.1 rule.2

/-- The worker's `handleSpecialCases`, as a function of the outgoing request's
hostname and headers. -/
def applySpecialCases (hostname : List Char) (h : Headers) : Headers :=
  (specialCasesRules hostname).foldl applyRule h

/-- One step of the domain-regex search: does `/domain=[^;]+/i` match at the
head of `s`?  On success the part of `s` after the match is returned. -/
def domainMatchHere (s : List Char) : Option (List Char) :=
  if lowerL (s.take 7) = str "domain=" then
    if (s.drop 7).takeWhile (fun c => c != ';') = [] then none
    else some ((s.drop 7).dropWhile (fun c => c != ';'))
  else none

/-- Left-to-right search for the first match of `/domain=[^;]+/i`, returning
the text before the match and the text after it. -/
def findDom : List Char → Option (List Char × List Char)
  | [] => none
  | c :: cs =>
    match domainMatchHere (c :: cs) with
    | some rest => some ([], rest)
    | none =>
      match findDom cs with
      | none => none
      | some (p, r) => some (c :: p, r)

/-- The worker's `cookie.replace(/domain=[^;]+/i, domain=PROXY_DOMAIN)`. -/
def replaceDomainFirst (s : List Char) : List Char :=
  match findDom s with
  | none => s
  | some (p, r) => p ++ str "domain=" ++ PROXY_DOMAIN ++ r

/-- Per-cookie body of `handleSetCookieHeaders`: rewrite or append the
`Domain` attribute, then append `Path=/` when no `path=` is present. -/
def rewriteCookie (cookie : List Char) : List Char :=
  let modified :=
    if containsCI cookie (str "domain=") then replaceDomainFirst cookie
    else cookie ++ str "; Domain=" ++ PROXY_DOMAIN
  if containsCI modified (str "path=") then modified
  else modified ++ str "; Path=/"

/-- The worker's `handleSetCookieHeaders`: drop the `Set-Cookie` entries and
append one rewritten entry per original cookie. -/
def handleSetCookieHeaders (h : Headers) : Headers :=
  deleteH h (str "Set-Cookie") ++
    (getAllH h (str "Set-Cookie")).map (fun c => (str "Set-Cookie", rewriteCookie c))

/-- Recognize one of the attribute openers `href=`, `src=`, `action=` at the
head of the text (the regex alternation `(href|src|action)=`). -/
def attrEq : List Char → Option (List Char × List Char)
  | 'h' :: 'r' :: 'e' :: 'f' :: '=' :: rest => some (str "href=", rest)
  | 's' :: 'r' :: 'c' :: '=' :: rest => some (str "src=", rest)
  | 'a' :: 'c' :: 't' :: 'i' :: 'o' :: 'n' :: '=' :: rest => some (str "action=", rest)
  | _ => none

/-- Match of `/((href|src|action)=["'])\/(?!\/)/` at the head of the text:
returns the consumed characters and the remainder. -/
def tryMatchRoot (s : List Char) : Option (List Char × List Char) :=
  match attrEq s with
  | none => none
  | some (ap, r1) =>
    match r1 with
    | q :: '/' :: rest =>
      if q = '"' ∨ q = '\'' then
        if rest.head? = some '/' then none
        else some (ap ++ [q, '/'], rest)
      else none
    | _ => none

/-- Fuel-indexed scan of the root-relative rewrite
`text.replace(regex, "$1/" + encodedOrigin + "/")`: on a match the
percent-encoded origin and a slash are emitted after the consumed text and the
scan resumes after the match. -/
def rewriteRootRelGo (enc : List Char) : Nat → List Char → List Char
  | _, [] => []
  | 0, s => s
  | fuel + 1, c :: cs =>
    match tryMatchRoot (c :: cs) with
    | some (m, rest) => m ++ enc ++ str "/" ++ rewriteRootRelGo enc fuel rest
    | none => c :: rewriteRootRelGo enc fuel cs

/-- The first substitution of `handleHtmlContent` (root-relative paths). -/
def rewriteRootRel (enc : List Char) (s : List Char) : List Char :=
  rewriteRootRelGo enc s.length s

/-- Is `c` a host character for the protocol-relative regex class
`[^\/"']`? -/
def hostChar (c : Char) : Bool := c != '/' && c != '"' && c != '\''

/-- Quote and host checks of the protocol-relative match, once an attribute
opener has been recognized: `p2` is the second capture group — the attribute
name `href`/`src`/`action` — and the returned triple is the first capture
(`attr=` plus quote), that second capture, and the remainder after the host
run `[^\/"']+`. -/
def protoMatch (p2 : List Char) (q : Char) (rest : List Char) :
    Option (List Char × List Char × List Char) :=
  if q = '"' ∨ q = '\'' then
    if rest.takeWhile hostChar = [] then none
    else some (p2 ++ str "=" ++ [q], p2, rest.dropWhile hostChar)
  else none

/-- Recognize one of the attribute openers at the head of the text, keeping
capture group 2 — the bare attribute name — alongside the remainder after
the `=`. -/
def attrName : List Char → Option (List Char × List Char)
  | 'h' :: 'r' :: 'e' :: 'f' :: '=' :: rest => some (str "href", rest)
  | 's' :: 'r' :: 'c' :: '=' :: rest => some (str "src", rest)
  | 'a' :: 'c' :: 't' :: 'i' :: 'o' :: 'n' :: '=' :: rest => some (str "action", rest)
  | _ => none

/-- Match of `/((href|src|action)=["'])\/\/([^\/"']+)/` at the head of the
text.  The worker's replace callback `(match, p1, p2)` binds `p1` to group 1
(`attr=` plus quote) and `p2` to group 2 — the attribute name, NOT the host
(group 3, which the callback never reads) — so the match data kept here is
(group 1, group 2, text after the host). -/
def tryMatchProto (s : List Char) : Option (List Char × List Char × List Char) :=
  match attrName s with
  | none => none
  | some (p2, r1) =>
    match r1 with
    | q :: '/' :: '/' :: rest => protoMatch p2 q rest
    | _ => none

/-- Fuel-indexed scan of the protocol-relative rewrite, whose replacement is
p1 followed by `newUrl = "/" + encodeURIComponent("https://" + p2)`: a match
is replaced by the first capture followed by `/` and the percent-encoding of
`https://` + the attribute name (the callback's `p2` is capture group 2), and
the text after the consumed host is scanned next. -/
def rewriteProtoRelGo : Nat → List Char → List Char
  | _, [] => []
  | 0, s => s
  | fuel + 1, c :: cs =>
    match tryMatchProto (c :: cs) with
    | some (p1, p2, rest) =>
      p1 ++ str "/" ++ encodeURIComponent (str "https://" ++ p2) ++
        rewriteProtoRelGo fuel rest
    | none => c :: rewriteProtoRelGo fuel cs

/-- The second substitution of `handleHtmlContent` (protocol-relative
URLs). -/
def rewriteProtoRel (s : List Char) : List Char :=
  rewriteProtoRelGo s.length s

/-- The worker's `handleHtmlContent` body transform: the root-relative rewrite
with the percent-encoded target origin, then the protocol-relative rewrite. -/
def handleHtmlContent (targetOrigin text : List Char) : List Char :=
  rewriteProtoRel (rewriteRootRel (encodeURIComponent targetOrigin) text)

/-- Response/request body.  `stream` is an unread body passed by reference
(the non-HTML passthrough), `buffered` is text that has been read into memory
(the HTML path and generated bodies), `empty` is the `null` body. -/
inductive Body
  | empty
  | stream (content : List Char)
  | buffered (content : List Char)
deriving DecidableEq

/-- What `response.text()` yields for a body. -/
def textOf : Body → List Char
  | Body.empty => []
  | Body.stream c => c
  | Body.buffered c => c

/-- An HTTP response: status, status text, headers, body, and — for origin
responses — the final response URL `response.url`. -/
structure Resp where
  status : Nat
  statusText : List Char
  headers : Headers
  body : Body
  url : List Char
deriving DecidableEq

/-- The incoming request as the worker reads it: method, the parsed parts of
`request.url` (`url.protocol` keeps its colon, `url.pathname` starts with a
slash, `url.search` is empty or starts with `?`), headers and body. -/
structure Req where
  method : List Char
  protocol : List Char
  pathname : List Char
  search : List Char
  headers : Headers
  body : Body
deriving DecidableEq

/-- The outgoing request the worker builds (`modifiedRequest`): target URL and
its hostname, method, sanitized headers, body (absent for GET/HEAD) and the
`redirect: 'manual'` flag. -/
structure OutReq where
  url : List Char
  host : List Char
  method : List Char
  headers : Headers
  body : Option Body
  redirectManual : Bool
deriving DecidableEq

/-- Pipeline failures before the fetch: the `decodeURIComponent` failure
(reported as 400) and any other thrown error with its message (reported as
500). -/
inductive PipeError
  | badEncoding
  | generic (msg : List Char)
deriving DecidableEq

/-- Minimal JSON string escaping, the part of `JSON.stringify` exercised by
the error messages the worker produces. -/
def jsonEscape (s : List Char) : List Char :=
  (s.map (fun c =>
    if c = '"' ∨ c = '\\' then ['\\', c]
    else if c = '\n' then ['\\', 'n']
    else [c])).flatten

/-- Serialization of `JSON.stringify({ error: msg })`. -/
def jsonErrorBody (msg : List Char) : List Char :=
  str "\x7b\"error\":\"" ++ jsonEscape msg ++ str "\"\x7d"

/-- The worker's `jsonResponse(data, status)`. -/
def jsonResponse (msg : List Char) (status : Nat) : Resp :=
  { status := status, statusText := [],
    headers := [(str "Content-Type", str "application/json; charset=utf-8")],
    body := Body.buffered (jsonErrorBody msg), url := [] }

/-- The worker's `setNoCacheHeaders`. -/
def setNoCacheHeaders (h : Headers) : Headers :=
  setH h (str "Cache-Control") (str "no-store")

/-- The worker's `setCorsHeaders`. -/
def setCorsHeaders (h : Headers) : Headers :=
  setH (setH (setH h
    (str "Access-Control-Allow-Origin") (str "*"))
    (str "Access-Control-Allow-Methods") (str "GET, POST, PUT, DELETE"))
    (str "Access-Control-Allow-Headers") (str "*")

/-- The two header-mutation calls applied to `modifiedResponse` before it is
returned. -/
def finalize (r : Resp) : Resp :=
  { r with headers := setCorsHeaders (setNoCacheHeaders r.headers) }

/-- The redirect statuses intercepted by the worker. -/
def redirectCodes : List Nat := [301, 302, 303, 307, 308]

/-- The dispatcher's HTML test
`response.headers.get("Content-Type")?.includes("text/html")`. -/
def contentTypeHtml (h : Headers) : Bool :=
  match getH h (str "Content-Type") with
  | none => false
  | some v => containsCS v (str "text/html")

/-- The worker's `handleRedirect`: without a `Location` header the response is
returned with an empty body; otherwise `Location` is resolved against
`response.url`, percent-encoded behind a leading slash, and replaces the old
header.  A resolution failure propagates as a thrown error. -/
def handleRedirect (resp : Resp) : Except (List Char) Resp :=
  match getH resp.headers (str "location") with
  | none =>
    Except.ok { status := resp.status, statusText := resp.statusText,
                headers := resp.headers, body := Body.empty, url := [] }
  | some loc =>
    match resolveURL loc resp.url with
    | none => Except.error (str "Invalid URL")
    | some u =>
      Except.ok { status := resp.status, statusText := resp.statusText,
                  headers := setH resp.headers (str "Location")
                    (str "/" ++ encodeURIComponent (urlToString u)),
                  body := Body.empty, url := [] }

/-- Lines 93–123 of the worker: extract and decode the target URL from the
path, validate it, reattach the query string, filter the `cf-` headers, apply
the per-host rules and assemble `modifiedRequest`. -/
def buildOutgoing (req : Req) : Except PipeError OutReq :=
  match decodePercent (req.pathname.drop 1) with
  | none => Except.error PipeError.badEncoding
  | some decoded =>
    let actual0 := ensureProtocol decoded req.protocol
    match parseURL actual0 with
    | none => Except.error (PipeError.generic (str "Invalid URL"))
    | some _ =>
      let actual := actual0 ++ req.search
      match parseURL actual with
      | none => Except.error (PipeError.generic (str "Invalid URL"))
      | some u =>
        Except.ok
          { url := actual, host := u.host, method := req.method,
            headers := applySpecialCases u.host (filterHeadersCf req.headers),
            body := if req.method = str "GET" ∨ req.method = str "HEAD" then none
                    else some req.body,
            redirectManual := true }

/-- Placeholder for the static landing page `getRootHtml()`; its contents are
presentation only (spec §1, out of scope) and are never inspected by any
claim. -/
def rootHtml : List Char := str "<!DOCTYPE html><html><body>Proxy Everything</body></html>"

/-- The worker's `handleRequest`, with the origin fetch outcome supplied as an
argument: serve the landing page at the root path, build the outgoing request
(mapping its failures to 400/500 JSON responses), then dispatch the origin
response to the redirect rewriter, the HTML rewriter (with recomputed
`Content-Length`) or the raw passthrough, rewriting cookies and finalizing
headers on the latter two paths. -/
def handleRequest (req : Req) (fetchRes : Except (List Char) Resp) : Resp :=
  if req.pathname = str "/" then
    { status := 200, statusText := [],
      headers := [(str "Content-Type", str "text/html; charset=utf-8")],
      body := Body.buffered rootHtml, url := [] }
  else
    match buildOutgoing req with
    | Except.error PipeError.badEncoding => jsonResponse (str "Invalid URL encoding.") 400
    | Except.error (PipeError.generic m) => jsonResponse m 500
    | Except.ok outReq =>
      match fetchRes with
      | Except.error m => jsonResponse m 500
      | Except.ok resp =>
        let headersWithCookies := handleSetCookieHeaders resp.headers
        if resp.status ∈ redirectCodes then
          match handleRedirect resp with
          | Except.error m => jsonResponse m 500
          | Except.ok r => r
        else if contentTypeHtml resp.headers then
          match parseURL outReq.url with
          | none => jsonResponse (str "Invalid URL") 500
          | some u =>
            let body := handleHtmlContent (originOf u) (textOf resp.body)
            finalize
              { status := resp.status, statusText := resp.statusText,
                headers := setH headersWithCookies (str "Content-Length")
                  (natToDec (utf8Length body)),
                body := Body.buffered body, url := [] }
        else
          finalize
            { status := resp.status, statusText := resp.statusText,
              headers := headersWithCookies, body := resp.body, url := [] }

/-! ### Generic list lemmas -/

theorem lowerL_append (a b : List Char) : lowerL (a ++ b) = lowerL a ++ lowerL b :=
  List.map_append Char.toLower a b

theorem infix_left {α} {p a : List α} (b : List α) (h : p <:+: a) : p <:+: a ++ b := by
  obtain ⟨s, t, rfl⟩ := h
  exact ⟨s, t ++ b, by simp⟩

theorem infix_right {α} {p b : List α} (a : List α) (h : p <:+: b) : p <:+: a ++ b := by
  obtain ⟨s, t, rfl⟩ := h
  exact ⟨a ++ s, t, by simp⟩

theorem infix_mid {α} {p m : List α} (a b : List α) (h : p <:+: m) : p <:+: a ++ m ++ b := by
  exact infix_left b (infix_right a h)

theorem prefix_append_split {α} {p c d : List α} {a : α}
    (ha : d.head? = some a) (hp : a ∉ p) (h : p <+: c ++ d) : p <+: c := by
  induction c generalizing p with
  | nil =>
    cases p with
    | nil => exact List.nil_prefix
    | cons x p' =>
      exfalso
      cases d with
      | nil => simp at ha
      | cons y d' =>
        simp only [List.head?_cons, Option.some.injEq] at ha
        rw [List.nil_append, List.cons_prefix_cons] at h
        exact hp (by simp [h.1, ha])
  | cons x c' ih =>
    cases p with
    | nil => exact List.nil_prefix
    | cons y p' =>
      rw [List.cons_append, List.cons_prefix_cons] at h
      rw [List.cons_prefix_cons]
      refine ⟨h.1, ih ?_ h.2⟩
      intro hmem
      exact hp (List.mem_cons_of_mem _ hmem)

theorem infix_append_split {α} {p c d : List α} {a : α}
    (ha : d.head? = some a) (hp : a ∉ p) : p <:+: c ++ d ↔ p <:+: c ∨ p <:+: d := by
  constructor
  · intro h
    induction c generalizing p with
    | nil => exact Or.inr (by simpa using h)
    | cons x c' ih =>
      rw [List.cons_append, List.infix_cons_iff] at h
      rcases h with h | h
      · cases p with
        | nil => exact Or.inl List.nil_infix
        | cons y p' =>
          rw [List.cons_prefix_cons] at h
          have hp' : a ∉ p' := fun hmem => hp (List.mem_cons_of_mem _ hmem)
          have hpre : p' <+: c' := prefix_append_split ha hp' h.2
          refine Or.inl (List.IsPrefix.isInfix ?_)
          rw [List.cons_prefix_cons]
          exact ⟨h.1, hpre⟩
      · rcases ih (fun hmem => hp hmem) h with h' | h'
        · exact Or.inl ((List.infix_cons_iff).2 (Or.inr h'))
        · exact Or.inr h'
  · rintro (h | h)
    · exact infix_left d h
    · exact infix_right c h

theorem takeWhile_append_all {α} {p : α → Bool} {v : List α} (w : List α)
    (hv : ∀ x ∈ v, p x = true) :
    (v ++ w).takeWhile p = v ++ w.takeWhile p := by
  induction v with
  | nil => simp
  | cons x v' ih =>
    have hx : p x = true := hv x (List.mem_cons_self x v')
    simp only [List.cons_append, List.takeWhile_cons, hx, if_true]
    rw [ih (fun y hy => hv y (List.mem_cons_of_mem _ hy))]

theorem dropWhile_append_all {α} {p : α → Bool} {v : List α} (w : List α)
    (hv : ∀ x ∈ v, p x = true) :
    (v ++ w).dropWhile p = w.dropWhile p := by
  induction v with
  | nil => simp
  | cons x v' ih =>
    have hx : p x = true := hv x (List.mem_cons_self x v')
    simp only [List.cons_append, List.dropWhile_cons, hx, if_true]
    exact ih (fun y hy => hv y (List.mem_cons_of_mem _ hy))

/-! ### Header-model lemmas -/

theorem getAllH_append (a b : Headers) (n : List Char) :
    getAllH (a ++ b) n = getAllH a n ++ getAllH b n := by
  simp [getAllH, List.filter_append]

theorem getAllH_deleteH_same {n n' : List Char} (h : Headers)
    (hn : lowerL n' = lowerL n) : getAllH (deleteH h n) n' = [] := by
  unfold getAllH deleteH
  rw [List.filter_filter]
  have : (h.filter fun a =>
      decide (lowerL a.1 = lowerL n') && decide (¬ lowerL a.1 = lowerL n)) = [] := by
    rw [List.filter_eq_nil_iff]
    intro a _
    by_cases hc : lowerL a.1 = lowerL n
    · simp [hc]
    · simp [hc, hn]
  rw [this, List.map_nil]

theorem getAllH_deleteH_ne {n n' : List Char} (h : Headers)
    (hn : ¬ lowerL n' = lowerL n) : getAllH (deleteH h n) n' = getAllH h n' := by
  unfold getAllH deleteH
  rw [List.filter_filter]
  congr 1
  apply List.filter_congr
  intro a _
  by_cases hc : lowerL a.1 = lowerL n'
  · have hna : ¬ lowerL a.1 = lowerL n := by rw [hc]; exact hn
    simp [hc, hna, hn]
  · simp [hc]

theorem getAllH_setH_same {n n' : List Char} (h : Headers) (v : List Char)
    (hn : lowerL n' = lowerL n) : getAllH (setH h n v) n' = [v] := by
  rw [setH, getAllH_append, getAllH_deleteH_same h hn]
  simp [getAllH, hn]

theorem getAllH_setH_ne {n n' : List Char} (h : Headers) (v : List Char)
    (hn : ¬ lowerL n' = lowerL n) : getAllH (setH h n v) n' = getAllH h n' := by
  rw [setH, getAllH_append, getAllH_deleteH_ne h hn]
  have : ¬ lowerL n = lowerL n' := fun hc => hn hc.symm
  simp [getAllH, this]

theorem getH_setH_same {n n' : List Char} (h : Headers) (v : List Char)
    (hn : lowerL n' = lowerL n) : getH (setH h n v) n' = some v := by
  rw [getH, getAllH_setH_same h v hn]
  rfl

theorem getH_setH_ne {n n' : List Char} (h : Headers) (v : List Char)
    (hn : ¬ lowerL n' = lowerL n) : getH (setH h n v) n' = getH h n' := by
  rw [getH, getAllH_setH_ne h v hn, getH]

theorem getAllH_map_cookie (l : List (List Char)) (f : List Char → List Char)
    (n : List Char) (hn : lowerL n = lowerL (str "Set-Cookie")) :
    getAllH (l.map (fun c => (str "Set-Cookie", f c))) n = l.map f := by
  induction l with
  | nil => rfl
  | cons c t ih =>
    simp only [List.map_cons, getAllH, List.filter_cons, hn.symm, decide_True, if_true]
    simp only [getAllH] at ih
    simp [ih]

/-! ### Cookie-rewrite lemmas -/

theorem lowerL_length (s : List Char) : (lowerL s).length = s.length :=
  List.length_map s Char.toLower

theorem containsCI_append_left {a pat : List Char} (b : List Char)
    (h : containsCI a pat = true) : containsCI (a ++ b) pat = true := by
  simp only [containsCI, decide_eq_true_eq, lowerL_append] at h ⊢
  exact infix_left _ h

theorem containsCI_append_right {b pat : List Char} (a : List Char)
    (h : containsCI b pat = true) : containsCI (a ++ b) pat = true := by
  simp only [containsCI, decide_eq_true_eq, lowerL_append] at h ⊢
  exact infix_right _ h

theorem domainMatchHere_of_shape {dkey v post : List Char}
    (hd : lowerL dkey = str "domain=") (hv : v ≠ []) (hsemi : ∀ x ∈ v, x ≠ ';')
    (hpost : post = [] ∨ post.head? = some ';') :
    domainMatchHere (dkey ++ (v ++ post)) = some post := by
  have hlen : dkey.length = 7 := by
    have := lowerL_length dkey
    rw [hd] at this
    simpa using this.symm
  have htake : (dkey ++ (v ++ post)).take 7 = dkey := List.take_left' hlen
  have hdrop : (dkey ++ (v ++ post)).drop 7 = v ++ post := List.drop_left' hlen
  have hvp : ∀ x ∈ v, (x != ';') = true := by
    intro x hx
    simpa using hsemi x hx
  have htw : (v ++ post).takeWhile (fun c => c != ';') = v := by
    rw [takeWhile_append_all post hvp]
    rcases hpost with h0 | h0
    · subst h0; simp
    · cases post with
      | nil => simp at h0
      | cons y t =>
        simp only [List.head?_cons, Option.some.injEq] at h0
        subst h0
        simp [List.takeWhile_cons]
  have hdw : (v ++ post).dropWhile (fun c => c != ';') = post := by
    rw [dropWhile_append_all post hvp]
    rcases hpost with h0 | h0
    · subst h0; simp
    · cases post with
      | nil => simp at h0
      | cons y t =>
        simp only [List.head?_cons, Option.some.injEq] at h0
        subst h0
        simp [List.dropWhile_cons]
  unfold domainMatchHere
  rw [htake, hd, if_pos rfl, hdrop, htw, hdw, if_neg hv]

theorem findDom_skip (pre rest : List Char) {p r : List Char}
    (h : ∀ i < pre.length, domainMatchHere ((pre ++ rest).drop i) = none)
    (hf : findDom rest = some (p, r)) :
    findDom (pre ++ rest) = some (pre ++ p, r) := by
  induction pre with
  | nil => simpa using hf
  | cons c pre' ih =>
    have h0 : domainMatchHere (c :: (pre' ++ rest)) = none := h 0 (Nat.succ_pos _)
    have hrec : findDom (pre' ++ rest) = some (pre' ++ p, r) :=
      ih (fun i hi => h (i + 1) (Nat.succ_lt_succ hi))
    simp [findDom, h0, hrec]

theorem findDom_of_shape {pre dkey v post : List Char}
    (hd : lowerL dkey = str "domain=") (hv : v ≠ []) (hsemi : ∀ x ∈ v, x ≠ ';')
    (hpost : post = [] ∨ post.head? = some ';')
    (hfirst : ∀ i < pre.length, domainMatchHere ((pre ++ (dkey ++ (v ++ post))).drop i) = none) :
    findDom (pre ++ (dkey ++ (v ++ post))) = some (pre, post) := by
  have hlen : dkey.length = 7 := by
    have := lowerL_length dkey
    rw [hd] at this
    simpa using this.symm
  have hmatch : domainMatchHere (dkey ++ (v ++ post)) = some post :=
    domainMatchHere_of_shape hd hv hsemi hpost
  cases dkey with
  | nil => simp at hlen
  | cons d0 drest =>
    have hfd : findDom (d0 :: (drest ++ (v ++ post))) = some ([], post) := by
      have : domainMatchHere (d0 :: (drest ++ (v ++ post))) = some post := by
        simpa using hmatch
      simp [findDom, this]
    have := findDom_skip pre ((d0 :: drest) ++ (v ++ post)) hfirst (by simpa using hfd)
    simpa using this

theorem containsCI_mid {m pat : List Char} (a b : List Char)
    (h : containsCI m pat = true) : containsCI (a ++ (m ++ b)) pat = true :=
  containsCI_append_right a (containsCI_append_left b h)

theorem path_not_in_modified {pre dkey v post : List Char}
    (hd : lowerL dkey = str "domain=")
    (hpost : post = [] ∨ post.head? = some ';')
    (hno : containsCI (pre ++ (dkey ++ (v ++ post))) (str "path=") = false) :
    containsCI (pre ++ (str "domain=" ++ (PROXY_DOMAIN ++ post))) (str "path=") = false := by
  have hnop : ¬ (str "path=" <:+: lowerL (pre ++ (dkey ++ (v ++ post)))) := by
    intro hc
    rw [show (str "path=") = lowerL (str "path=") by decide] at hc
    simp [containsCI, hc] at hno
  rw [Bool.eq_false_iff]
  intro hc
  simp only [containsCI, decide_eq_true_eq] at hc
  rw [show lowerL (str "path=") = str "path=" by decide] at hc
  have hmod : lowerL (pre ++ (str "domain=" ++ (PROXY_DOMAIN ++ post)))
      = (lowerL pre ++ str "domain=") ++ lowerL post := by
    simp only [lowerL_append, PROXY_DOMAIN]
    rw [show lowerL (str "") = [] by decide, show lowerL (str "domain=") = str "domain=" by decide]
    simp [List.append_assoc]
  rw [hmod] at hc
  have horig : lowerL (pre ++ (dkey ++ (v ++ post)))
      = lowerL pre ++ (str "domain=" ++ (lowerL v ++ lowerL post)) := by
    simp [lowerL_append, hd]
  have hinpre : ¬ (str "path=" <:+: lowerL pre) := by
    intro hin
    exact hnop (by rw [horig]; exact infix_left _ hin)
  have hinpost : ¬ (str "path=" <:+: lowerL post) := by
    intro hin
    exact hnop (by
      rw [horig]
      exact infix_right _ (infix_right _ (infix_right _ hin)))
  have hindom : ¬ (str "path=" <:+: str "domain=") := by decide
  have hleft : ¬ (str "path=" <:+: lowerL pre ++ str "domain=") := by
    intro hin
    rcases (infix_append_split (a := 'd') (by decide) (by decide)).1 hin with h1 | h1
    · exact hinpre h1
    · exact hindom h1
  rcases hpost with h0 | h0
  · subst h0
    simp only [lowerL, List.map_nil, List.append_nil] at hc
    exact hleft hc
  · cases post with
    | nil => simp at h0
    | cons y t =>
      simp only [List.head?_cons, Option.some.injEq] at h0
      subst h0
      have hlow : lowerL (';' :: t) = ';' :: lowerL t := by
        simp [lowerL, show Char.toLower ';' = ';' by decide]
      rw [hlow] at hc
      rcases (infix_append_split (a := ';') (by simp) (by decide)).1 hc with h1 | h1
      · exact hleft h1
      · exact hinpost (by rw [hlow]; exact h1)

theorem neg_of_false {b : Bool} (h : b = false) : ¬ (b = true) := by
  rw [h]
  exact Bool.false_ne_true

theorem rewriteCookie_def (cookie : List Char) : rewriteCookie cookie =
    (if containsCI (if containsCI cookie (str "domain=") then replaceDomainFirst cookie
        else cookie ++ str "; Domain=" ++ PROXY_DOMAIN) (str "path=")
     then (if containsCI cookie (str "domain=") then replaceDomainFirst cookie
        else cookie ++ str "; Domain=" ++ PROXY_DOMAIN)
     else (if containsCI cookie (str "domain=") then replaceDomainFirst cookie
        else cookie ++ str "; Domain=" ++ PROXY_DOMAIN) ++ str "; Path=/") := rfl

/-- C2: every origin `Set-Cookie` directive yields exactly one rewritten
directive in order (first conjunct); every rewritten directive carries a
`Domain` and a `Path` attribute (second conjunct); a directive without
`domain=` gets the proxy domain appended with everything else passing through
unchanged, plus `Path=/` when no `path=` is present (third and fourth
conjuncts); and in a directive whose first `Domain` attribute has a nonempty
value, that value is replaced by the proxy's configured domain while the
surrounding attributes pass through, with `Path=/` appended exactly when no
`path=` is present (fifth conjunct). -/
theorem c2_set_cookie_rewrite :
    (∀ h : Headers, getAllH (handleSetCookieHeaders h) (str "Set-Cookie")
        = (getAllH h (str "Set-Cookie")).map rewriteCookie)
    ∧ (∀ cookie : List Char, containsCI (rewriteCookie cookie) (str "domain=") = true
        ∧ containsCI (rewriteCookie cookie) (str "path=") = true)
    ∧ (∀ cookie : List Char, containsCI cookie (str "domain=") = false →
        containsCI cookie (str "path=") = true →
        rewriteCookie cookie = cookie ++ str "; Domain=" ++ PROXY_DOMAIN)
    ∧ (∀ cookie : List Char, containsCI cookie (str "domain=") = false →
        containsCI cookie (str "path=") = false →
        rewriteCookie cookie = cookie ++ str "; Domain=" ++ PROXY_DOMAIN ++ str "; Path=/")
    ∧ (∀ pre dkey v post : List Char, lowerL dkey = str "domain=" → v ≠ [] →
        (∀ x ∈ v, x ≠ ';') → (post = [] ∨ post.head? = some ';') →
        (∀ i < pre.length, domainMatchHere ((pre ++ dkey ++ v ++ post).drop i) = none) →
        (containsCI post (str "path=") = true →
          rewriteCookie (pre ++ dkey ++ v ++ post)
            = pre ++ str "domain=" ++ PROXY_DOMAIN ++ post)
        ∧ (containsCI (pre ++ dkey ++ v ++ post) (str "path=") = false →
          rewriteCookie (pre ++ dkey ++ v ++ post)
            = pre ++ str "domain=" ++ PROXY_DOMAIN ++ post ++ str "; Path=/")) := by
  have hpathSuffix : containsCI (str "; Path=/") (str "path=") = true := by decide
  have hdomSelf : containsCI (str "domain=") (str "domain=") = true := by decide
  have hdomKey : containsCI (str "; Domain=") (str "domain=") = true := by decide
  refine ⟨?p1, ?p2, ?p3, ?p4, ?p5⟩
  · intro h
    unfold handleSetCookieHeaders
    rw [getAllH_append, getAllH_deleteH_same h rfl, List.nil_append,
      getAllH_map_cookie _ _ _ rfl]
  · intro cookie
    cases hdom : containsCI cookie (str "domain=") with
    | true =>
      have hM : (if containsCI cookie (str "domain=") then replaceDomainFirst cookie
          else cookie ++ str "; Domain=" ++ PROXY_DOMAIN) = replaceDomainFirst cookie :=
        if_pos hdom
      have hdm : containsCI (replaceDomainFirst cookie) (str "domain=") = true := by
        cases hf : findDom cookie with
        | none =>
          have : replaceDomainFirst cookie = cookie := by unfold replaceDomainFirst; rw [hf]
          rw [this]; exact hdom
        | some pr =>
          obtain ⟨p, r⟩ := pr
          have : replaceDomainFirst cookie = p ++ str "domain=" ++ PROXY_DOMAIN ++ r := by
            unfold replaceDomainFirst; rw [hf]
          rw [this]
          exact containsCI_append_left _ (containsCI_append_left _
            (containsCI_append_right _ hdomSelf))
      cases hpath : containsCI (replaceDomainFirst cookie) (str "path=") with
      | true =>
        rw [rewriteCookie_def, hM, if_pos hpath]
        exact ⟨hdm, hpath⟩
      | false =>
        rw [rewriteCookie_def, hM, if_neg (neg_of_false hpath)]
        exact ⟨containsCI_append_left _ hdm, containsCI_append_right _ hpathSuffix⟩
    | false =>
      have hM : (if containsCI cookie (str "domain=") then replaceDomainFirst cookie
          else cookie ++ str "; Domain=" ++ PROXY_DOMAIN)
          = cookie ++ str "; Domain=" ++ PROXY_DOMAIN :=
        if_neg (neg_of_false hdom)
      have hdm : containsCI (cookie ++ str "; Domain=" ++ PROXY_DOMAIN)
          (str "domain=") = true :=
        containsCI_append_left _ (containsCI_append_right _ hdomKey)
      cases hpath : containsCI (cookie ++ str "; Domain=" ++ PROXY_DOMAIN) (str "path=") with
      | true =>
        rw [rewriteCookie_def, hM, if_pos hpath]
        exact ⟨hdm, hpath⟩
      | false =>
        rw [rewriteCookie_def, hM, if_neg (neg_of_false hpath)]
        exact ⟨containsCI_append_left _ hdm, containsCI_append_right _ hpathSuffix⟩
  · intro cookie hdom hpath
    have hM : (if containsCI cookie (str "domain=") then replaceDomainFirst cookie
        else cookie ++ str "; Domain=" ++ PROXY_DOMAIN)
        = cookie ++ str "; Domain=" ++ PROXY_DOMAIN :=
      if_neg (neg_of_false hdom)
    have hp : containsCI (cookie ++ str "; Domain=" ++ PROXY_DOMAIN) (str "path=") = true :=
      containsCI_append_left _ (containsCI_append_left _ hpath)
    rw [rewriteCookie_def, hM, if_pos hp]
  · intro cookie hdom hpath
    have hM : (if containsCI cookie (str "domain=") then replaceDomainFirst cookie
        else cookie ++ str "; Domain=" ++ PROXY_DOMAIN)
        = cookie ++ str "; Domain=" ++ PROXY_DOMAIN :=
      if_neg (neg_of_false hdom)
    have hnp : containsCI (cookie ++ str "; Domain=" ++ PROXY_DOMAIN) (str "path=") = false := by
      rw [show cookie ++ str "; Domain=" ++ PROXY_DOMAIN
          = cookie ++ (str "; Domain=" ++ PROXY_DOMAIN) from (List.append_assoc _ _ _)]
      rw [Bool.eq_false_iff]
      intro hc
      simp only [containsCI, decide_eq_true_eq, lowerL_append] at hc
      rw [show lowerL (str "path=") = str "path=" by decide,
        show lowerL (str "; Domain=") ++ lowerL PROXY_DOMAIN = str "; domain=" by decide] at hc
      rcases (infix_append_split (a := ';') (by decide) (by decide)).1 hc with h1 | h1
      · rw [Bool.eq_false_iff] at hpath
        exact hpath (by
          simp only [containsCI, decide_eq_true_eq]
          rw [show lowerL (str "path=") = str "path=" by decide]
          exact h1)
      · exact absurd h1 (by decide)
    rw [rewriteCookie_def, hM, if_neg (neg_of_false hnp)]
  · intro pre dkey v post hd hv hsemi hpost hfirst
    have hdomC : containsCI (pre ++ dkey ++ v ++ post) (str "domain=") = true := by
      simp only [containsCI, decide_eq_true_eq, lowerL_append, hd]
      rw [show lowerL (str "domain=") = str "domain=" by decide]
      exact infix_left _ (infix_left _ (infix_right _ (List.infix_refl _)))
    have hfd : findDom (pre ++ dkey ++ v ++ post) = some (pre, post) := by
      have hsk : ∀ i < pre.length,
          domainMatchHere ((pre ++ (dkey ++ (v ++ post))).drop i) = none := by
        intro i hi
        have := hfirst i hi
        simpa [List.append_assoc] using this
      have := findDom_of_shape hd hv hsemi hpost hsk
      simpa [List.append_assoc] using this
    have hrepl : replaceDomainFirst (pre ++ dkey ++ v ++ post)
        = pre ++ str "domain=" ++ PROXY_DOMAIN ++ post := by
      unfold replaceDomainFirst; rw [hfd]
    have hM : (if containsCI (pre ++ dkey ++ v ++ post) (str "domain=")
        then replaceDomainFirst (pre ++ dkey ++ v ++ post)
        else (pre ++ dkey ++ v ++ post) ++ str "; Domain=" ++ PROXY_DOMAIN)
        = pre ++ str "domain=" ++ PROXY_DOMAIN ++ post := by
      rw [if_pos hdomC, hrepl]
    constructor
    · intro hpath
      have hp : containsCI (pre ++ str "domain=" ++ PROXY_DOMAIN ++ post)
          (str "path=") = true :=
        containsCI_append_right _ hpath
      rw [rewriteCookie_def, hM, if_pos hp]
    · intro hnopath
      have hmod : containsCI (pre ++ str "domain=" ++ PROXY_DOMAIN ++ post)
          (str "path=") = false := by
        rw [show pre ++ str "domain=" ++ PROXY_DOMAIN ++ post
            = pre ++ (str "domain=" ++ (PROXY_DOMAIN ++ post)) by simp [List.append_assoc]]
        apply path_not_in_modified hd hpost
        rw [show pre ++ (dkey ++ (v ++ post)) = pre ++ dkey ++ v ++ post by
          simp [List.append_assoc]]
        exact hnopath
      rw [rewriteCookie_def, hM, if_neg (neg_of_false hmod)]

/-- Witness for C2: concrete cookies exercising the append clauses and the
domain-replacement clause, plus the two-cookie header example. -/
theorem c2_set_cookie_rewrite_witness :
    rewriteCookie (str "b=2") = str "b=2; Domain=; Path=/"
    ∧ rewriteCookie (str "sid=xyz; Path=/; Secure") = str "sid=xyz; Path=/; Secure; Domain="
    ∧ rewriteCookie (str "a=1; Domain=orig.com; Path=/x") = str "a=1; domain=; Path=/x"
    ∧ getAllH (handleSetCookieHeaders
        [(str "Set-Cookie", str "a=1; Domain=orig.com; Path=/x"),
         (str "Content-Type", str "text/html"),
         (str "Set-Cookie", str "b=2")]) (str "Set-Cookie")
      = [str "a=1; domain=; Path=/x", str "b=2; Domain=; Path=/"] := by
  refine ⟨?w1, ?w2, ?w3, ?w4⟩
  · exact (c2_set_cookie_rewrite.2.2.2.1 (str "b=2") (by decide) (by decide)).trans (by decide)
  · exact (c2_set_cookie_rewrite.2.2.1 (str "sid=xyz; Path=/; Secure") (by decide)
      (by decide)).trans (by decide)
  · have h := (c2_set_cookie_rewrite.2.2.2.2 (str "a=1; ") (str "Domain=") (str "orig.com")
      (str "; Path=/x") (of_decide_eq_true rfl) (by decide) (of_decide_eq_true rfl)
      (by decide) (of_decide_eq_true rfl)).1 (by decide)
    exact (by decide : str "a=1; Domain=orig.com; Path=/x"
        = str "a=1; " ++ str "Domain=" ++ str "orig.com" ++ str "; Path=/x") ▸ h.trans (by decide)
  · rw [c2_set_cookie_rewrite.1]
    decide

/-! ### HTML-rewrite scanner lemmas -/

theorem attrEq_length {s ap r1 : List Char} (h : attrEq s = some (ap, r1)) :
    r1.length < s.length := by
  unfold attrEq at h
  split at h <;> simp at h <;> obtain ⟨-, h2⟩ := h <;> subst h2 <;>
    simp only [List.length_cons] <;> omega

theorem tryMatchRoot_length {s m rest : List Char} (h : tryMatchRoot s = some (m, rest)) :
    rest.length < s.length := by
  unfold tryMatchRoot at h
  cases hA : attrEq s with
  | none => rw [hA] at h; exact absurd h (by simp)
  | some pr =>
    obtain ⟨ap, r1⟩ := pr
    rw [hA] at h
    have hr1 : r1.length < s.length := attrEq_length hA
    dsimp only at h
    split at h
    · split at h
      · split at h
        · exact Option.noConfusion h
        · injection h with hp
          cases hp
          simp only [List.length_cons] at hr1
          omega
      · exact Option.noConfusion h
    · exact Option.noConfusion h

theorem protoMatch_length {p2 : List Char} {q : Char} {rest a b r : List Char}
    (h : protoMatch p2 q rest = some (a, b, r)) : r.length ≤ rest.length := by
  unfold protoMatch at h
  split at h
  · split at h
    · exact Option.noConfusion h
    · injection h with hp
      cases hp
      exact (List.dropWhile_suffix hostChar).length_le
  · exact Option.noConfusion h

theorem attrName_length {s nm r1 : List Char} (h : attrName s = some (nm, r1)) :
    r1.length < s.length := by
  unfold attrName at h
  split at h <;> simp at h <;> obtain ⟨-, h2⟩ := h <;> subst h2 <;>
    simp only [List.length_cons] <;> omega

theorem tryMatchProto_length {s p1 p2 rest : List Char}
    (h : tryMatchProto s = some (p1, p2, rest)) : rest.length < s.length := by
  unfold tryMatchProto at h
  cases hA : attrName s with
  | none => rw [hA] at h; exact Option.noConfusion h
  | some pr =>
    obtain ⟨nm, r1⟩ := pr
    rw [hA] at h
    have hr1 : r1.length < s.length := attrName_length hA
    dsimp only at h
    split at h
    · have hr := protoMatch_length h
      simp only [List.length_cons] at hr1
      omega
    · exact Option.noConfusion h

theorem rewriteRootRelGo_fuel (enc : List Char) :
    ∀ f1 f2 s, s.length ≤ f1 → s.length ≤ f2 →
      rewriteRootRelGo enc f1 s = rewriteRootRelGo enc f2 s := by
  intro f1
  induction f1 with
  | zero =>
    intro f2 s h1 _
    have : s = [] := List.eq_nil_of_length_eq_zero (Nat.le_zero.1 h1)
    subst this
    simp [rewriteRootRelGo]
  | succ f1' ih =>
    intro f2 s h1 h2
    cases s with
    | nil => simp [rewriteRootRelGo]
    | cons c cs =>
      cases f2 with
      | zero => simp at h2
      | succ f2' =>
        simp only [rewriteRootRelGo]
        simp only [List.length_cons] at h1 h2
        cases h : tryMatchRoot (c :: cs) with
        | some pr =>
          obtain ⟨m, rest⟩ := pr
          have hlt : rest.length < cs.length + 1 := by
            simpa using tryMatchRoot_length h
          dsimp only
          rw [ih f2' rest (by omega) (by omega)]
        | none =>
          dsimp only
          rw [ih f2' cs (by omega) (by omega)]

theorem rewriteProtoRelGo_fuel :
    ∀ f1 f2 s, s.length ≤ f1 → s.length ≤ f2 →
      rewriteProtoRelGo f1 s = rewriteProtoRelGo f2 s := by
  intro f1
  induction f1 with
  | zero =>
    intro f2 s h1 _
    have : s = [] := List.eq_nil_of_length_eq_zero (Nat.le_zero.1 h1)
    subst this
    simp [rewriteProtoRelGo]
  | succ f1' ih =>
    intro f2 s h1 h2
    cases s with
    | nil => simp [rewriteProtoRelGo]
    | cons c cs =>
      cases f2 with
      | zero => simp at h2
      | succ f2' =>
        simp only [rewriteProtoRelGo]
        simp only [List.length_cons] at h1 h2
        cases h : tryMatchProto (c :: cs) with
        | some pr =>
          obtain ⟨p1, host, rest⟩ := pr
          have hlt : rest.length < cs.length + 1 := by
            simpa using tryMatchProto_length h
          dsimp only
          rw [ih f2' rest (by omega) (by omega)]
        | none =>
          dsimp only
          rw [ih f2' cs (by omega) (by omega)]

theorem rewriteRootRel_match {enc s m rest : List Char}
    (h : tryMatchRoot s = some (m, rest)) :
    rewriteRootRel enc s = m ++ enc ++ str "/" ++ rewriteRootRel enc rest := by
  cases s with
  | nil => exact absurd h (by simp [tryMatchRoot, attrEq])
  | cons c cs =>
    unfold rewriteRootRel
    simp only [List.length_cons, rewriteRootRelGo, h]
    have hlt : rest.length < cs.length + 1 := by simpa using tryMatchRoot_length h
    rw [rewriteRootRelGo_fuel enc cs.length rest.length rest (by omega) (le_refl _)]

theorem rewriteRootRel_nomatch {enc : List Char} {c : Char} {cs : List Char}
    (h : tryMatchRoot (c :: cs) = none) :
    rewriteRootRel enc (c :: cs) = c :: rewriteRootRel enc cs := by
  unfold rewriteRootRel
  simp only [List.length_cons, rewriteRootRelGo, h]

theorem rewriteProtoRel_match {s p1 p2 rest : List Char}
    (h : tryMatchProto s = some (p1, p2, rest)) :
    rewriteProtoRel s
      = p1 ++ str "/" ++ encodeURIComponent (str "https://" ++ p2) ++ rewriteProtoRel rest := by
  cases s with
  | nil => exact Option.noConfusion h
  | cons c cs =>
    unfold rewriteProtoRel
    simp only [List.length_cons, rewriteProtoRelGo, h]
    have hlt : rest.length < cs.length + 1 := by simpa using tryMatchProto_length h
    rw [rewriteProtoRelGo_fuel cs.length rest.length rest (by omega) (le_refl _)]

theorem rewriteProtoRel_nomatch {c : Char} {cs : List Char}
    (h : tryMatchProto (c :: cs) = none) :
    rewriteProtoRel (c :: cs) = c :: rewriteProtoRel cs := by
  unfold rewriteProtoRel
  simp only [List.length_cons, rewriteProtoRelGo, h]

theorem rewriteRootRel_skip (enc : List Char) (pre : List Char) {rest : List Char}
    (h : ∀ i < pre.length, tryMatchRoot ((pre ++ rest).drop i) = none) :
    rewriteRootRel enc (pre ++ rest) = pre ++ rewriteRootRel enc rest := by
  induction pre with
  | nil => simp
  | cons c pre' ih =>
    have h0 : tryMatchRoot (c :: (pre' ++ rest)) = none := h 0 (Nat.succ_pos _)
    rw [List.cons_append, rewriteRootRel_nomatch h0,
      ih (fun i hi => h (i + 1) (Nat.succ_lt_succ hi))]
    rfl

theorem rewriteRootRel_id (enc : List Char) (t : List Char)
    (h : ∀ i < t.length, tryMatchRoot (t.drop i) = none) :
    rewriteRootRel enc t = t := by
  induction t with
  | nil => rfl
  | cons c cs ih =>
    have h0 : tryMatchRoot (c :: cs) = none := h 0 (Nat.succ_pos _)
    rw [rewriteRootRel_nomatch h0, ih (fun i hi => h (i + 1) (Nat.succ_lt_succ hi))]

theorem rewriteProtoRel_skip (pre : List Char) {rest : List Char}
    (h : ∀ i < pre.length, tryMatchProto ((pre ++ rest).drop i) = none) :
    rewriteProtoRel (pre ++ rest) = pre ++ rewriteProtoRel rest := by
  induction pre with
  | nil => simp
  | cons c pre' ih =>
    have h0 : tryMatchProto (c :: (pre' ++ rest)) = none := h 0 (Nat.succ_pos _)
    rw [List.cons_append, rewriteProtoRel_nomatch h0,
      ih (fun i hi => h (i + 1) (Nat.succ_lt_succ hi))]
    rfl

theorem rewriteProtoRel_id (t : List Char)
    (h : ∀ i < t.length, tryMatchProto (t.drop i) = none) :
    rewriteProtoRel t = t := by
  induction t with
  | nil => rfl
  | cons c cs ih =>
    have h0 : tryMatchProto (c :: cs) = none := h 0 (Nat.succ_pos _)
    rw [rewriteProtoRel_nomatch h0, ih (fun i hi => h (i + 1) (Nat.succ_lt_succ hi))]

theorem tryMatchRoot_at {a : List Char} {q : Char} {post : List Char}
    (ha : a = str "href" ∨ a = str "src" ∨ a = str "action")
    (hq : q = '"' ∨ q = '\'') (hpost : post.head? ≠ some '/') :
    tryMatchRoot (a ++ str "=" ++ [q, '/'] ++ post)
      = some (a ++ str "=" ++ [q, '/'], post) := by
  rcases ha with ha | ha | ha <;> subst ha
  · have hred : tryMatchRoot (str "href" ++ str "=" ++ [q, '/'] ++ post)
        = if q = '"' ∨ q = '\'' then
            (if post.head? = some '/' then none else some (str "href=" ++ [q, '/'], post))
          else none := rfl
    rw [hred, if_pos hq, if_neg hpost]
    rfl
  · have hred : tryMatchRoot (str "src" ++ str "=" ++ [q, '/'] ++ post)
        = if q = '"' ∨ q = '\'' then
            (if post.head? = some '/' then none else some (str "src=" ++ [q, '/'], post))
          else none := rfl
    rw [hred, if_pos hq, if_neg hpost]
    rfl
  · have hred : tryMatchRoot (str "action" ++ str "=" ++ [q, '/'] ++ post)
        = if q = '"' ∨ q = '\'' then
            (if post.head? = some '/' then none else some (str "action=" ++ [q, '/'], post))
          else none := rfl
    rw [hred, if_pos hq, if_neg hpost]
    rfl

theorem dropWhile_eq_self_of_takeWhile_nil {p : Char → Bool} {l : List Char}
    (h : l.takeWhile p = []) : l.dropWhile p = l := by
  cases l with
  | nil => rfl
  | cons c cs =>
    by_cases hc : p c = true
    · simp [List.takeWhile_cons, hc] at h
    · simp only [Bool.not_eq_true] at hc
      simp [List.dropWhile_cons, hc]

theorem tryMatchProto_at {a : List Char} {q : Char} {host post : List Char}
    (ha : a = str "href" ∨ a = str "src" ∨ a = str "action")
    (hq : q = '"' ∨ q = '\'') (hhost : host ≠ [])
    (hhc : ∀ x ∈ host, hostChar x = true) (hpost : post.takeWhile hostChar = []) :
    tryMatchProto (a ++ str "=" ++ [q, '/', '/'] ++ (host ++ post))
      = some (a ++ str "=" ++ [q], a, post) := by
  have htw : (host ++ post).takeWhile hostChar = host := by
    rw [takeWhile_append_all post hhc, hpost, List.append_nil]
  have hdw : (host ++ post).dropWhile hostChar = post := by
    rw [dropWhile_append_all post hhc, dropWhile_eq_self_of_takeWhile_nil hpost]
  rcases ha with ha | ha | ha <;> subst ha
  · have hred : tryMatchProto (str "href" ++ str "=" ++ [q, '/', '/'] ++ (host ++ post))
        = protoMatch (str "href") q (host ++ post) := rfl
    rw [hred]
    unfold protoMatch
    rw [if_pos hq, htw, hdw, if_neg hhost]
  · have hred : tryMatchProto (str "src" ++ str "=" ++ [q, '/', '/'] ++ (host ++ post))
        = protoMatch (str "src") q (host ++ post) := rfl
    rw [hred]
    unfold protoMatch
    rw [if_pos hq, htw, hdw, if_neg hhost]
  · have hred : tryMatchProto (str "action" ++ str "=" ++ [q, '/', '/'] ++ (host ++ post))
        = protoMatch (str "action") q (host ++ post) := rfl
    rw [hred]
    unfold protoMatch
    rw [if_pos hq, htw, hdw, if_neg hhost]

/-- C6: in the root-relative HTML rewrite with the percent-encoded target
origin, text with no occurrence of the pattern is left untouched (first
conjunct), and at every occurrence of `(href|src|action)=` followed by a
quote and a `/` not followed by another `/`, the percent-encoded origin and a
slash are inserted immediately after the leading slash, the scan continuing
on the remainder (second conjunct). -/
theorem c6_root_relative_rewrite (origin : List Char) :
    (∀ t : List Char, (∀ i < t.length, tryMatchRoot (t.drop i) = none) →
      rewriteRootRel (encodeURIComponent origin) t = t)
    ∧ (∀ pre a post : List Char, ∀ q : Char,
        a = str "href" ∨ a = str "src" ∨ a = str "action" →
        (q = '"' ∨ q = '\'') → post.head? ≠ some '/' →
        (∀ i < pre.length,
          tryMatchRoot ((pre ++ (a ++ str "=" ++ [q, '/'] ++ post)).drop i) = none) →
        rewriteRootRel (encodeURIComponent origin) (pre ++ (a ++ str "=" ++ [q, '/'] ++ post))
          = pre ++ (a ++ str "=" ++ [q, '/'] ++ encodeURIComponent origin ++ str "/"
              ++ rewriteRootRel (encodeURIComponent origin) post)) := by
  constructor
  · exact fun t h => rewriteRootRel_id _ t h
  · intro pre a post q ha hq hpost hskip
    rw [rewriteRootRel_skip _ pre hskip,
      rewriteRootRel_match (tryMatchRoot_at ha hq hpost)]

/-- Witness for C6: the spec's example, with target origin
`https://a.com` the attribute `href="/x"` in surrounding markup becomes
`href="/https%3A%2F%2Fa.com/x"`. -/
theorem c6_root_relative_rewrite_witness :
    rewriteRootRel (encodeURIComponent (str "https://a.com")) (str "<a href=\"/x\">")
      = str "<a href=\"/https%3A%2F%2Fa.com/x\">" := by
  have h := (c6_root_relative_rewrite (str "https://a.com")).2 (str "<a ") (str "href")
    (str "x\">") '"' (Or.inl rfl) (Or.inl rfl) (by decide) (by decide)
  rw [show str "<a href=\"/x\">"
      = str "<a " ++ (str "href" ++ str "=" ++ ['"', '/'] ++ str "x\">") by decide]
  exact h.trans (by decide)

/-- C7 (amended): in the protocol-relative HTML rewrite, unmatched text is
untouched (first conjunct); at every occurrence of `(href|src|action)=`
followed by a quote and `//host`, the consumed text `attr=` + quote + `//` +
host is replaced by `attr=` + quote + `/` + percent-encode(`https://` +
ATTRIBUTE NAME) — the replace callback's `p2` is capture group 2, the
attribute name, not group 3, the host, so the host is dropped from the output
— while the remainder of the original URL after the host is left in place
(scanned next) (second conjunct). -/
theorem c7_protocol_relative_rewrite :
    (∀ t : List Char, (∀ i < t.length, tryMatchProto (t.drop i) = none) →
      rewriteProtoRel t = t)
    ∧ (∀ pre a host post : List Char, ∀ q : Char,
        a = str "href" ∨ a = str "src" ∨ a = str "action" →
        (q = '"' ∨ q = '\'') → host ≠ [] → (∀ x ∈ host, hostChar x = true) →
        post.takeWhile hostChar = [] →
        (∀ i < pre.length,
          tryMatchProto ((pre ++ (a ++ str "=" ++ [q, '/', '/'] ++ (host ++ post))).drop i)
            = none) →
        rewriteProtoRel (pre ++ (a ++ str "=" ++ [q, '/', '/'] ++ (host ++ post)))
          = pre ++ (a ++ str "=" ++ [q] ++ str "/"
              ++ encodeURIComponent (str "https://" ++ a) ++ rewriteProtoRel post)) := by
  constructor
  · exact fun t h => rewriteProtoRel_id t h
  · intro pre a host post q ha hq hhost hhc hpost hskip
    rw [rewriteProtoRel_skip pre hskip,
      rewriteProtoRel_match (tryMatchProto_at ha hq hhost hhc hpost)]

/-- Witness for the amended C7: `src="//cdn.example.com/path"` becomes
`src="/https%3A%2F%2Fsrc/path"` — the host is replaced by the encoded
`https://src` (the attribute name) and the remainder `/path` after the host
stays in place. -/
theorem c7_protocol_relative_rewrite_witness :
    rewriteProtoRel (str "src=\"//cdn.example.com/path\"")
      = str "src=\"/https%3A%2F%2Fsrc/path\"" := by
  have h := c7_protocol_relative_rewrite.2 [] (str "src") (str "cdn.example.com")
    (str "/path\"") '"' (Or.inr (Or.inl rfl)) (Or.inl rfl) (by decide) (of_decide_eq_true rfl)
    (by decide) (of_decide_eq_true rfl)
  rw [show str "src=\"//cdn.example.com/path\""
      = [] ++ (str "src" ++ str "=" ++ ['"', '/', '/']
          ++ (str "cdn.example.com" ++ str "/path\"")) by decide]
  exact h.trans (by decide)

/-- Counterexample for C7 as stated: on the spec's own example
`src="//cdn.example.com"` the worker's replace callback `(match, p1, p2)`
binds `p2` to capture group 2 — the attribute name `src` — not to group 3,
the host, so the output is `src="/https%3A%2F%2Fsrc"`, not the claimed
`src="/https%3A%2F%2Fcdn.example.com"`. -/
theorem c7_group_capture_counterexample :
    rewriteProtoRel (str "src=\"//cdn.example.com\"")
      = str "src=\"/https%3A%2F%2Fsrc\""
    ∧ rewriteProtoRel (str "src=\"//cdn.example.com\"")
      ≠ str "src=\"/https%3A%2F%2Fcdn.example.com\"" := by
  constructor
  · decide
  · decide

/-! ### Pipeline lemmas -/

theorem getH_deleteH_same {n n' : List Char} (h : Headers)
    (hn : lowerL n' = lowerL n) : getH (deleteH h n) n' = none := by
  rw [getH, getAllH_deleteH_same h hn]

theorem getH_deleteH_ne {n n' : List Char} (h : Headers)
    (hn : ¬ lowerL n' = lowerL n) : getH (deleteH h n) n' = getH h n' := by
  rw [getH, getAllH_deleteH_ne h hn, getH]

theorem buildOutgoing_inv {req : Req} {out : OutReq}
    (h : buildOutgoing req = Except.ok out) :
    ∃ d u0 u, decodePercent (req.pathname.drop 1) = some d
      ∧ parseURL (ensureProtocol d req.protocol) = some u0
      ∧ parseURL (ensureProtocol d req.protocol ++ req.search) = some u
      ∧ out = { url := ensureProtocol d req.protocol ++ req.search, host := u.host,
                method := req.method,
                headers := applySpecialCases u.host (filterHeadersCf req.headers),
                body := (if req.method = str "GET" ∨ req.method = str "HEAD" then none
                  else some req.body),
                redirectManual := true } := by
  unfold buildOutgoing at h
  cases hd : decodePercent (req.pathname.drop 1) with
  | none => rw [hd] at h; exact absurd h (by simp)
  | some d =>
    rw [hd] at h
    dsimp only at h
    cases hp0 : parseURL (ensureProtocol d req.protocol) with
    | none => rw [hp0] at h; exact absurd h (by simp)
    | some u0 =>
      rw [hp0] at h
      dsimp only at h
      cases hp : parseURL (ensureProtocol d req.protocol ++ req.search) with
      | none => rw [hp] at h; exact absurd h (by simp)
      | some u =>
        rw [hp] at h
        dsimp only at h
        refine ⟨d, u0, u, rfl, hp0, hp, ?_⟩
        injection h with h'
        exact h'.symm

theorem handleRequest_badEncoding {req : Req} (hroot : req.pathname ≠ str "/")
    (hdec : decodePercent (req.pathname.drop 1) = none)
    (f : Except (List Char) Resp) :
    handleRequest req f = jsonResponse (str "Invalid URL encoding.") 400 := by
  have hb : buildOutgoing req = Except.error PipeError.badEncoding := by
    unfold buildOutgoing
    rw [hdec]
  unfold handleRequest
  rw [if_neg hroot, hb]

theorem handleRequest_invalidUrl {req : Req} {d : List Char}
    (hroot : req.pathname ≠ str "/")
    (hdec : decodePercent (req.pathname.drop 1) = some d)
    (hp : parseURL (ensureProtocol d req.protocol) = none)
    (f : Except (List Char) Resp) :
    handleRequest req f = jsonResponse (str "Invalid URL") 500 := by
  have hb : buildOutgoing req = Except.error (PipeError.generic (str "Invalid URL")) := by
    unfold buildOutgoing
    rw [hdec]
    dsimp only
    rw [hp]
  unfold handleRequest
  rw [if_neg hroot, hb]

theorem handleRequest_fetchError {req : Req} {out : OutReq}
    (hroot : req.pathname ≠ str "/") (hout : buildOutgoing req = Except.ok out)
    (m : List Char) :
    handleRequest req (Except.error m) = jsonResponse m 500 := by
  unfold handleRequest
  rw [if_neg hroot, hout]

theorem handleRequest_dispatch {req : Req} {out : OutReq}
    (hroot : req.pathname ≠ str "/") (hout : buildOutgoing req = Except.ok out)
    (resp : Resp) :
    handleRequest req (Except.ok resp) =
      if resp.status ∈ redirectCodes then
        (match handleRedirect resp with
         | Except.error m => jsonResponse m 500
         | Except.ok r => r)
      else if contentTypeHtml resp.headers then
        (match parseURL out.url with
         | none => jsonResponse (str "Invalid URL") 500
         | some u =>
           finalize { status := resp.status, statusText := resp.statusText,
                      headers := setH (handleSetCookieHeaders resp.headers)
                        (str "Content-Length")
                        (natToDec (utf8Length
                          (handleHtmlContent (originOf u) (textOf resp.body)))),
                      body := Body.buffered
                        (handleHtmlContent (originOf u) (textOf resp.body)),
                      url := [] })
      else
        finalize { status := resp.status, statusText := resp.statusText,
                   headers := handleSetCookieHeaders resp.headers, body := resp.body,
                   url := [] } := by
  unfold handleRequest
  rw [if_neg hroot, hout]

theorem finalize_header_facts (h : Headers) :
    getH (setCorsHeaders (setNoCacheHeaders h)) (str "Cache-Control")
      = some (str "no-store")
    ∧ getH (setCorsHeaders (setNoCacheHeaders h)) (str "Access-Control-Allow-Origin")
      = some (str "*")
    ∧ getH (setCorsHeaders (setNoCacheHeaders h)) (str "Access-Control-Allow-Methods")
      = some (str "GET, POST, PUT, DELETE")
    ∧ getH (setCorsHeaders (setNoCacheHeaders h)) (str "Access-Control-Allow-Headers")
      = some (str "*") := by
  unfold setCorsHeaders setNoCacheHeaders
  refine ⟨?g1, ?g2, ?g3, ?g4⟩
  · rw [getH_setH_ne _ _ (by decide), getH_setH_ne _ _ (by decide),
      getH_setH_ne _ _ (by decide), getH_setH_same _ _ (by decide)]
  · rw [getH_setH_ne _ _ (by decide), getH_setH_ne _ _ (by decide),
      getH_setH_same _ _ (by decide)]
  · rw [getH_setH_ne _ _ (by decide), getH_setH_same _ _ (by decide)]
  · rw [getH_setH_same _ _ (by decide)]

theorem applySpecialCases_pximg (h : Headers) :
    getH (applySpecialCases (str "i.pximg.net") h) (str "Origin") = none
    ∧ getH (applySpecialCases (str "i.pximg.net") h) (str "Referer")
      = some (str "https://www.pixiv.net/") := by
  have hrules : applySpecialCases (str "i.pximg.net") h
      = setH (deleteH h (str "Origin")) (str "Referer") (str "https://www.pixiv.net/") := rfl
  rw [hrules]
  constructor
  · rw [getH_setH_ne _ _ (by decide), getH_deleteH_same _ (by decide)]
  · rw [getH_setH_same _ _ (by decide)]

theorem applySpecialCases_wildcard (host : List Char) (h : Headers)
    (h1 : host ≠ str "i.pximg.net") (h2 : host ≠ str "i-cf.pximg.net")
    (h3 : host ≠ str "*") :
    getH (applySpecialCases host h) (str "Origin") = none
    ∧ getH (applySpecialCases host h) (str "Referer") = none := by
  have hrules : applySpecialCases host h
      = deleteH (deleteH h (str "Origin")) (str "Referer") := by
    unfold applySpecialCases specialCasesRules
    rw [if_neg h1, if_neg h2, if_neg h3]
    rfl
  rw [hrules]
  constructor
  · rw [getH_deleteH_ne _ (by decide), getH_deleteH_same _ (by decide)]
  · rw [getH_deleteH_same _ (by decide)]

/-! ### Concrete fixtures used by the witnesses -/

/-- A request for target `https://a.com` (scheme given, no query). -/
def reqA : Req :=
  { method := str "GET", protocol := str "https:",
    pathname := str "/https%3A%2F%2Fa.com", search := [], headers := [],
    body := Body.empty }

/-- The outgoing request the worker builds from `reqA`. -/
def outA : OutReq :=
  { url := str "https://a.com", host := str "a.com", method := str "GET",
    headers := [], body := none, redirectManual := true }

/-- An origin redirect response: 302 from `https://a.com/x` with a relative
`Location`. -/
def respRedir : Resp :=
  { status := 302, statusText := str "Found",
    headers := [(str "Location", str "/login"), (str "Set-Cookie", str "sid=1")],
    body := Body.empty, url := str "https://a.com/x" }

/-- A non-HTML origin response (PNG image) with a cookie. -/
def respPng : Resp :=
  { status := 200, statusText := str "OK",
    headers := [(str "Content-Type", str "image/png"), (str "Set-Cookie", str "sid=1")],
    body := Body.stream (str "PNGDATA"), url := str "https://a.com/i.png" }

/-- The URL record for `https://a.com/login`. -/
def urlLogin : URLm :=
  { protocol := str "https:", host := str "a.com", pathname := str "/login", search := [] }

/-- C1 counterexample: on the redirect dispatch path the worker returns from
`handleRedirect` before `setNoCacheHeaders`/`setCorsHeaders` run, so the
response to the client carries neither `Cache-Control: no-store` nor any of
the three CORS headers. -/
theorem c1_redirect_headers_counterexample :
    getH (handleRequest reqA (Except.ok respRedir)).headers (str "Cache-Control") = none
    ∧ getH (handleRequest reqA (Except.ok respRedir)).headers
        (str "Access-Control-Allow-Origin") = none
    ∧ getH (handleRequest reqA (Except.ok respRedir)).headers
        (str "Access-Control-Allow-Methods") = none
    ∧ getH (handleRequest reqA (Except.ok respRedir)).headers
        (str "Access-Control-Allow-Headers") = none :=
  ⟨of_decide_eq_true rfl, by decide, of_decide_eq_true rfl, by decide⟩

/-- C1 (amended): on the two non-redirect dispatch paths (HTML rewrite and
raw passthrough) the response carries `Cache-Control: no-store` and the three
CORS headers with the specified values; the redirect path returns before
these headers are added (see the counterexample). -/
theorem c1_nocache_cors_nonredirect {req : Req} {out : OutReq} {resp : Resp}
    (hroot : req.pathname ≠ str "/") (hout : buildOutgoing req = Except.ok out)
    (hnr : resp.status ∉ redirectCodes) :
    getH (handleRequest req (Except.ok resp)).headers (str "Cache-Control")
      = some (str "no-store")
    ∧ getH (handleRequest req (Except.ok resp)).headers
        (str "Access-Control-Allow-Origin") = some (str "*")
    ∧ getH (handleRequest req (Except.ok resp)).headers
        (str "Access-Control-Allow-Methods") = some (str "GET, POST, PUT, DELETE")
    ∧ getH (handleRequest req (Except.ok resp)).headers
        (str "Access-Control-Allow-Headers") = some (str "*") := by
  rw [handleRequest_dispatch hroot hout resp, if_neg hnr]
  obtain ⟨d, u0, u, hd, hp0, hp, hout'⟩ := buildOutgoing_inv hout
  have hpu : parseURL out.url = some u := by rw [hout']; exact hp
  cases hct : contentTypeHtml resp.headers with
  | true =>
    rw [if_pos rfl, hpu]
    exact finalize_header_facts _
  | false =>
    rw [if_neg (by decide : ¬ (false = true))]
    exact finalize_header_facts _

/-- Witness for the amended C1: the PNG passthrough response carries all four
headers. -/
theorem c1_nocache_cors_nonredirect_witness :
    getH (handleRequest reqA (Except.ok respPng)).headers (str "Cache-Control")
      = some (str "no-store")
    ∧ getH (handleRequest reqA (Except.ok respPng)).headers
        (str "Access-Control-Allow-Origin") = some (str "*") := by
  have h := @c1_nocache_cors_nonredirect reqA outA respPng (by decide) rfl (by decide)
  exact ⟨h.1, h.2.1⟩

/-- C3: a redirect-status origin response without `Location` is passed on
with its status, status text and headers unchanged and an empty body; with a
`Location`, the header is replaced by `/` + percent-encode of the reference
resolved against the origin response's own URL, everything else preserved and
the body empty. -/
theorem c3_redirect_rewrite {req : Req} {out : OutReq} {resp : Resp}
    (hroot : req.pathname ≠ str "/") (hout : buildOutgoing req = Except.ok out)
    (hst : resp.status ∈ redirectCodes) :
    (getH resp.headers (str "location") = none →
      handleRequest req (Except.ok resp)
        = { status := resp.status, statusText := resp.statusText,
            headers := resp.headers, body := Body.empty, url := [] })
    ∧ (∀ loc u, getH resp.headers (str "location") = some loc →
        resolveURL loc resp.url = some u →
        handleRequest req (Except.ok resp)
          = { status := resp.status, statusText := resp.statusText,
              headers := setH resp.headers (str "Location")
                (str "/" ++ encodeURIComponent (urlToString u)),
              body := Body.empty, url := [] }) := by
  rw [handleRequest_dispatch hroot hout resp, if_pos hst]
  constructor
  · intro hloc
    have hr : handleRedirect resp
        = Except.ok { status := resp.status, statusText := resp.statusText,
                      headers := resp.headers, body := Body.empty, url := [] } := by
      unfold handleRedirect
      rw [hloc]
    rw [hr]
  · intro loc u hloc hres
    have hr : handleRedirect resp
        = Except.ok { status := resp.status, statusText := resp.statusText,
                      headers := setH resp.headers (str "Location")
                        (str "/" ++ encodeURIComponent (urlToString u)),
                      body := Body.empty, url := [] } := by
      unfold handleRedirect
      rw [hloc]
      dsimp only
      rw [hres]
    rw [hr]

/-- Witness for C3: the spec's example — a 302 from `https://a.com/x` with
`Location: /login` comes back with
`Location: /https%3A%2F%2Fa.com%2Flogin`, status and status text unchanged,
body empty. -/
theorem c3_redirect_rewrite_witness :
    handleRequest reqA (Except.ok respRedir)
      = { status := 302, statusText := str "Found",
          headers := [(str "Set-Cookie", str "sid=1"),
            (str "Location", str "/https%3A%2F%2Fa.com%2Flogin")],
          body := Body.empty, url := [] } := by
  have h := (@c3_redirect_rewrite reqA outA respRedir
    (by decide) rfl (by decide)).2 (str "/login") urlLogin (by decide) (by decide)
  exact h.trans (by decide)

/-- C9: a non-redirect, non-HTML origin response is forwarded with its body
passed through by reference (same `Body` value, so an unread stream stays an
unread stream — no buffering) and its status and status text preserved. -/
theorem c9_stream_passthrough {req : Req} {out : OutReq} {resp : Resp}
    (hroot : req.pathname ≠ str "/") (hout : buildOutgoing req = Except.ok out)
    (hnr : resp.status ∉ redirectCodes) (hct : contentTypeHtml resp.headers = false) :
    (handleRequest req (Except.ok resp)).body = resp.body
    ∧ (∀ c, resp.body = Body.stream c →
        (handleRequest req (Except.ok resp)).body = Body.stream c)
    ∧ (handleRequest req (Except.ok resp)).status = resp.status
    ∧ (handleRequest req (Except.ok resp)).statusText = resp.statusText := by
  rw [handleRequest_dispatch hroot hout resp, if_neg hnr, if_neg (neg_of_false hct)]
  exact ⟨rfl, fun c hc => hc, rfl, rfl⟩

/-- Witness for C9: the PNG response body comes back byte-identical as the
same stream, with status 200 `OK`. -/
theorem c9_stream_passthrough_witness :
    (handleRequest reqA (Except.ok respPng)).body = Body.stream (str "PNGDATA")
    ∧ (handleRequest reqA (Except.ok respPng)).status = 200 := by
  have h := @c9_stream_passthrough reqA outA respPng
    (by decide) rfl (by decide) (by decide)
  exact ⟨h.2.1 (str "PNGDATA") rfl, by rw [h.2.2.1]; rfl⟩

/-- C10: on the redirect dispatch path the response keeps exactly the origin
response's headers with at most `Location` modified — every other name
(including `Set-Cookie`, unrewritten, and the absent `Cache-Control`/CORS
names) maps to exactly the origin's values — the body is empty and the status
preserved. -/
theorem c10_redirect_frame {req : Req} {out : OutReq} {resp : Resp}
    (hroot : req.pathname ≠ str "/") (hout : buildOutgoing req = Except.ok out)
    (hst : resp.status ∈ redirectCodes) :
    (getH resp.headers (str "location") = none →
      (handleRequest req (Except.ok resp)).headers = resp.headers)
    ∧ (∀ loc u, getH resp.headers (str "location") = some loc →
        resolveURL loc resp.url = some u →
        (∀ n, ¬ lowerL n = lowerL (str "Location") →
          getAllH (handleRequest req (Except.ok resp)).headers n = getAllH resp.headers n)
        ∧ getAllH (handleRequest req (Except.ok resp)).headers (str "Location")
            = [str "/" ++ encodeURIComponent (urlToString u)]
        ∧ (handleRequest req (Except.ok resp)).body = Body.empty
        ∧ (handleRequest req (Except.ok resp)).status = resp.status) := by
  have hdisp := handleRequest_dispatch hroot hout resp
  constructor
  · intro hloc
    have hr : handleRedirect resp
        = Except.ok { status := resp.status, statusText := resp.statusText,
                      headers := resp.headers, body := Body.empty, url := [] } := by
      unfold handleRedirect
      rw [hloc]
    rw [hdisp, if_pos hst, hr]
  · intro loc u hloc hres
    have hr : handleRedirect resp
        = Except.ok { status := resp.status, statusText := resp.statusText,
                      headers := setH resp.headers (str "Location")
                        (str "/" ++ encodeURIComponent (urlToString u)),
                      body := Body.empty, url := [] } := by
      unfold handleRedirect
      rw [hloc]
      dsimp only
      rw [hres]
    have hE : handleRequest req (Except.ok resp)
        = { status := resp.status, statusText := resp.statusText,
            headers := setH resp.headers (str "Location")
              (str "/" ++ encodeURIComponent (urlToString u)),
            body := Body.empty, url := [] } := by
      rw [hdisp, if_pos hst, hr]
    refine ⟨fun n hn => ?_, ?_, ?_, ?_⟩
    · rw [hE]
      exact getAllH_setH_ne resp.headers _ hn
    · rw [hE]
      exact getAllH_setH_same resp.headers _ rfl
    · rw [hE]
    · rw [hE]

/-- Witness for C10: the `Set-Cookie` header of the redirect response passes
through unrewritten, `Location` is the only changed header, and the body is
empty. -/
theorem c10_redirect_frame_witness :
    getAllH (handleRequest reqA (Except.ok respRedir)).headers (str "Set-Cookie")
      = [str "sid=1"]
    ∧ getAllH (handleRequest reqA (Except.ok respRedir)).headers (str "Location")
      = [str "/https%3A%2F%2Fa.com%2Flogin"]
    ∧ (handleRequest reqA (Except.ok respRedir)).body = Body.empty := by
  have h := (@c10_redirect_frame reqA outA respRedir
    (by decide) rfl (by decide)).2 (str "/login") urlLogin (by decide) (by decide)
  exact ⟨(h.1 (str "Set-Cookie") (by decide)).trans (by decide),
    h.2.1.trans (by decide), h.2.2.1⟩

/-- C4: the outgoing request built by the worker has its `Origin` header
deleted and its `Referer` set to `https://www.pixiv.net/` when the target
hostname is `i.pximg.net`, whatever the original values; for a hostname with
no exact entry in the rule table the wildcard rule applies and both `Origin`
and `Referer` are deleted. -/
theorem c4_header_rules {req : Req} {out : OutReq}
    (hout : buildOutgoing req = Except.ok out) :
    (out.host = str "i.pximg.net" →
      getH out.headers (str "Origin") = none
      ∧ getH out.headers (str "Referer") = some (str "https://www.pixiv.net/"))
    ∧ (out.host ≠ str "i.pximg.net" → out.host ≠ str "i-cf.pximg.net" →
      out.host ≠ str "*" →
      getH out.headers (str "Origin") = none
      ∧ getH out.headers (str "Referer") = none) := by
  obtain ⟨d, u0, u, hd, hp0, hp, hout'⟩ := buildOutgoing_inv hout
  subst hout'
  constructor
  · intro hhost
    dsimp only at hhost ⊢
    rw [hhost]
    exact applySpecialCases_pximg _
  · intro h1 h2 h3
    dsimp only at h1 h2 h3 ⊢
    exact applySpecialCases_wildcard _ _ h1 h2 h3

/-- A request targeting `i.pximg.net` with hostile `Origin`/`Referer` values
and a platform-internal header. -/
def reqPx : Req :=
  { method := str "GET", protocol := str "https:",
    pathname := str "/https%3A%2F%2Fi.pximg.net%2Fa.png", search := [],
    headers := [(str "Origin", str "https://evil.example"),
      (str "Referer", str "https://evil.example"), (str "CF-Ray", str "abc")],
    body := Body.empty }

/-- The outgoing request the worker builds from `reqPx`. -/
def outPx : OutReq :=
  { url := str "https://i.pximg.net/a.png", host := str "i.pximg.net",
    method := str "GET",
    headers := [(str "Referer", str "https://www.pixiv.net/")], body := none,
    redirectManual := true }

/-- A request targeting `example.com` (no exact rule-table entry) with the
same hostile headers plus a custom one. -/
def reqEx : Req :=
  { method := str "GET", protocol := str "https:",
    pathname := str "/https%3A%2F%2Fexample.com%2Fp", search := [],
    headers := [(str "Origin", str "https://evil.example"),
      (str "Referer", str "https://evil.example"), (str "X-Custom", str "k")],
    body := Body.empty }

/-- The outgoing request the worker builds from `reqEx`. -/
def outEx : OutReq :=
  { url := str "https://example.com/p", host := str "example.com",
    method := str "GET", headers := [(str "X-Custom", str "k")], body := none,
    redirectManual := true }

/-- Witness for C4: both the `i.pximg.net` rule and the wildcard rule,
applied to requests whose `Origin`/`Referer` started as hostile values. -/
theorem c4_header_rules_witness :
    getH outPx.headers (str "Origin") = none
    ∧ getH outPx.headers (str "Referer") = some (str "https://www.pixiv.net/")
    ∧ getH outEx.headers (str "Origin") = none
    ∧ getH outEx.headers (str "Referer") = none := by
  have h1 := (@c4_header_rules reqPx outPx rfl).1 rfl
  have h2 := (@c4_header_rules reqEx outEx rfl).2
    (by decide) (by decide) (by decide)
  exact ⟨h1.1, h1.2, h2.1, h2.2⟩

/-- C5: the outgoing origin request is issued to the percent-decoded request
path (minus its leading slash) with the incoming request's scheme prefixed
when the decoded string has no `http(s)://` prefix, and with the original
query string appended verbatim. -/
theorem c5_url_extraction {req : Req} {d : List Char} {out : OutReq}
    (hdec : decodePercent (req.pathname.drop 1) = some d)
    (hout : buildOutgoing req = Except.ok out) :
    out.url = ensureProtocol d req.protocol ++ req.search
    ∧ ((str "http://").isPrefixOf d = true ∨ (str "https://").isPrefixOf d = true →
        ensureProtocol d req.protocol = d)
    ∧ ((str "http://").isPrefixOf d = false → (str "https://").isPrefixOf d = false →
        ensureProtocol d req.protocol = req.protocol ++ str "//" ++ d) := by
  obtain ⟨d', u0, u, hd', hp0, hp, hout'⟩ := buildOutgoing_inv hout
  have hdd : d' = d := by
    rw [hdec] at hd'
    exact (Option.some.inj hd').symm
  subst hdd
  refine ⟨by rw [hout'], ?_, ?_⟩
  · intro h
    unfold ensureProtocol
    rcases h with h | h <;> rw [if_pos (by simp [h])]
  · intro h1 h2
    unfold ensureProtocol
    rw [if_neg (by simp [h1, h2])]

/-- A request whose embedded target URL has no scheme and whose own URL has a
query string. -/
def reqNoScheme : Req :=
  { method := str "GET", protocol := str "https:",
    pathname := str "/a.com%2Fx", search := str "?q=1", headers := [],
    body := Body.empty }

/-- The outgoing request the worker builds from `reqNoScheme`. -/
def outNoScheme : OutReq :=
  { url := str "https://a.com/x?q=1", host := str "a.com", method := str "GET",
    headers := [], body := none, redirectManual := true }

/-- Witness for C5: the schemeless decoded target gets the incoming `https:`
scheme and the query string is reattached verbatim. -/
theorem c5_url_extraction_witness :
    outNoScheme.url = ensureProtocol (str "a.com/x") (str "https:") ++ str "?q=1"
    ∧ ensureProtocol (str "a.com/x") (str "https:")
      = str "https:" ++ str "//" ++ str "a.com/x" := by
  have h := @c5_url_extraction reqNoScheme (str "a.com/x") outNoScheme (by decide) rfl
  exact ⟨h.1, h.2.2 (by decide) (by decide)⟩

/-- C8: a path-decoding failure yields status 400 with the fixed JSON error
body; with the pipeline intact, a fetch failure yields 500 carrying the
underlying message; a malformed target URL yields 500; and every JSON error
response has `Content-Type: application/json; charset=utf-8` and body
`JSON.stringify of (error: message)`. -/
theorem c8_error_responses :
    (∀ req : Req, req.pathname ≠ str "/" →
      decodePercent (req.pathname.drop 1) = none →
      ∀ f, handleRequest req f = jsonResponse (str "Invalid URL encoding.") 400)
    ∧ (∀ (req : Req) (out : OutReq) (m : List Char), req.pathname ≠ str "/" →
      buildOutgoing req = Except.ok out →
      handleRequest req (Except.error m) = jsonResponse m 500)
    ∧ (∀ (req : Req) (d : List Char), req.pathname ≠ str "/" →
      decodePercent (req.pathname.drop 1) = some d →
      parseURL (ensureProtocol d req.protocol) = none →
      ∀ f, handleRequest req f = jsonResponse (str "Invalid URL") 500)
    ∧ (∀ (m : List Char) (s : Nat),
      getH (jsonResponse m s).headers (str "Content-Type")
        = some (str "application/json; charset=utf-8")
      ∧ (jsonResponse m s).status = s
      ∧ (jsonResponse m s).body
          = Body.buffered (str "\x7b\"error\":\"" ++ jsonEscape m ++ str "\"\x7d")) :=
  ⟨fun _req h1 h2 f => handleRequest_badEncoding h1 h2 f,
   fun _req _out m h1 h2 => handleRequest_fetchError h1 h2 m,
   fun _req _d h1 h2 h3 f => handleRequest_invalidUrl h1 h2 h3 f,
   fun _m _s => ⟨rfl, rfl, rfl⟩⟩

/-- The spec's invalid-percent-encoding request. -/
def reqBadEnc : Req :=
  { method := str "GET", protocol := str "https:",
    pathname := str "/%E0%A4%A", search := [], headers := [], body := Body.empty }

/-- Witness for C8: the request path `/%E0%A4%A` produces the 400 response
with body containing exactly the fixed error message, and the fetch-error
clause at a concrete message. -/
theorem c8_error_responses_witness :
    handleRequest reqBadEnc (Except.ok respPng)
      = jsonResponse (str "Invalid URL encoding.") 400
    ∧ (jsonResponse (str "Invalid URL encoding.") 400).body
      = Body.buffered (str "\x7b\"error\":\"Invalid URL encoding.\"\x7d")
    ∧ handleRequest reqA (Except.error (str "fetch failed"))
      = jsonResponse (str "fetch failed") 500 := by
  refine ⟨c8_error_responses.1 reqBadEnc (by decide) (by decide) (Except.ok respPng),
    ?_, c8_error_responses.2.1 reqA outA (str "fetch failed") (by decide) rfl⟩
  exact ((c8_error_responses.2.2.2 (str "Invalid URL encoding.") 400).2.2).trans (by decide)
